import Mathlib

/-!
# Verification of `blender_dependency_check.py`

Shallow embedding of `SourceAssets/Models/Automation/blender_dependency_check.py`.

The script walks a directory tree, collects all `.blend` files
(case-insensitive extension match), and for each one records a size
warning when the file exceeds 50 MiB, loads it into the host (Blender)
as the active document, records the list of linked library filepaths,
and finally prints a report.

Modelling decisions:
* The filesystem is an inductive tree `FSTree`; `find_blend_files`
  translates the source function, fusing `os.walk`'s top-down traversal
  (the files of a directory are yielded before its subdirectories are
  recursed into, subdirectories in listing order) with the filtering
  inner loop.
* The host API (`os.path.getsize`, `bpy.ops.wm.open_mainfile`,
  `bpy.data.libraries`) is a record of functions; `none` models a raised
  exception (OSError / load failure).  `bpy.data.libraries` is modelled
  as the list of `lib.filepath` strings the host reports.
* Python dicts preserve insertion order and update in place; `dictInsert`
  reproduces that.
* Side effects on the host are recorded as an event trace (`HostEvent`);
  the commented-out `bpy.ops.wm.save_as_mainfile` line corresponds to the
  never-emitted `saveAsMainfile` event.
* Printing is modelled as the list of printed lines.  Python's
  `f"{x:.2f}"` float formatting is modelled by exact rational rounding
  (round half to even) to two decimal places.
-/

/-- A directory: a list of (file name, byte size) entries and a list of
(subdirectory name, subtree) entries, in directory-listing order. -/
inductive FSTree where
  | node (files : List (String × Nat)) (dirs : List (String × FSTree))
deriving Repr

def FSTree.files : FSTree → List (String × Nat)
  | .node fs _ => fs

def FSTree.dirs : FSTree → List (String × FSTree)
  | .node _ ds => ds

/-- Python `s.endswith(suffix)`, computed on the character lists of the
strings. -/
def strEndsWith (s suffix : String) : Bool :=
  List.isSuffixOf suffix.data s.data

/-- Python `s.lower()`, computed characterwise.  (Python `str.lower` is full
Unicode; only the ASCII range matters for the `.blend` comparison.) -/
def strToLower (s : String) : String :=
  ⟨s.data.map Char.toLower⟩

/-- POSIX `os.path.join root name`: insert a separator unless `root`
already ends with one or is empty; `name` never starts with a separator
because it comes from a directory listing. -/
def joinPath (root name : String) : String :=
  if strEndsWith root "/" ∨ root = "" then root ++ name else root ++ "/" ++ name

/-- Python `f.lower().endswith(".blend")`. -/
def isBlendName (name : String) : Bool :=
  strEndsWith (strToLower name) ".blend"

/-- Translation of `find_blend_files(directory)`: walk the tree top-down, appending the
joined path of every file whose lowercased name ends in `.blend`. -/
def find_blend_files : String → FSTree → List String
  | directory, .node files dirs =>
    (files.filter fun f => isBlendName f.1).map (fun f => joinPath directory f.1)
      ++ (dirs.attach.map fun d => find_blend_files (joinPath directory d.1.1) d.1.2).flatten
termination_by _ t => sizeOf t
decreasing_by
  obtain ⟨⟨dn, dt⟩, hd⟩ := d
  have h1 := List.sizeOf_lt_of_mem hd
  simp only [FSTree.node.sizeOf_spec, Prod.mk.sizeOf_spec] at h1 ⊢
  omega

/-- Number of `.blend`-named files anywhere in the tree (the `N` of the
spec's "N matching files"). -/
def countBlend : FSTree → Nat
  | .node files dirs =>
    (files.filter fun f => isBlendName f.1).length
      + (dirs.attach.map fun d => countBlend d.1.2).sum
termination_by t => sizeOf t
decreasing_by
  obtain ⟨⟨dn, dt⟩, hd⟩ := d
  have h1 := List.sizeOf_lt_of_mem hd
  simp only [FSTree.node.sizeOf_spec, Prod.mk.sizeOf_spec] at h1 ⊢
  omega

/-- Relation `HasFile t root p name sz`: the tree `t`, mounted at directory path
`root`, contains (possibly in a nested subdirectory) a file entry with
name `name`, size `sz`, and full joined path `p`. -/
inductive HasFile : FSTree → String → String → String → Nat → Prop where
  | here {files : List (String × Nat)} {dirs : List (String × FSTree)}
      {root name : String} {sz : Nat} :
      (name, sz) ∈ files →
      HasFile (.node files dirs) root (joinPath root name) name sz
  | there {files : List (String × Nat)} {dirs : List (String × FSTree)}
      {root d p name : String} {sub : FSTree} {sz : Nat} :
      (d, sub) ∈ dirs →
      HasFile sub (joinPath root d) p name sz →
      HasFile (.node files dirs) root p name sz

/-- A host-side effect of the script. -/
inductive HostEvent where
  | openMainfile (path : String)
  | queryLibraries (path : String)
  | saveAsMainfile (path : String)
deriving Repr, DecidableEq

/-- Does the event write a file on disk?  Only a resave would. -/
def modifiesDisk : HostEvent → Bool
  | .saveAsMainfile _ => true
  | _ => false

/-- The two host capabilities the script uses.  `none` models a raised
exception (e.g. `OSError` from `os.path.getsize`, or a failed
`bpy.ops.wm.open_mainfile`); `openLibraries p = some l` models a
successful load of `p` followed by reading the `filepath` of each entry
of `bpy.data.libraries`. -/
structure HostAPI where
  getsize : String → Option Nat
  openLibraries : String → Option (List String)

/-- The two accumulated dictionaries of the script. -/
structure ScriptState where
  results_libs : List (String × List String)
  results_size : List (String × Nat)
deriving Repr, DecidableEq

/-- Python dict assignment `d[k] = v`: update in place if the key is
present (keeping its position), otherwise append. -/
def dictInsert {α : Type} (d : List (String × α)) (k : String) (v : α) :
    List (String × α) :=
  if (d.find? fun e => e.1 == k).isSome then
    d.map fun e => if e.1 == k then (k, v) else e
  else
    d ++ [(k, v)]

/-- Python dict lookup `d[k]` (as an option). -/
def dictLookup {α : Type} (d : List (String × α)) (k : String) : Option α :=
  (d.find? fun e => e.1 == k).map (·.2)

/-- One iteration of the inspection loop on `blend_file`: record a size
warning when strictly above 50 MiB, open the file in the host (replacing
the active document), and record its library filepaths.  Returns the
emitted host events and `none` when an uncaught exception aborts the
run. -/
def inspectOne (h : HostAPI) (s : ScriptState) (blend_file : String) :
    List HostEvent × Option ScriptState :=
  match h.getsize blend_file with
  | none => ([], none)
  | some file_size =>
    let s1 : ScriptState :=
      if file_size > 50 * 1024 * 1024 then
        { s with results_size := dictInsert s.results_size blend_file file_size }
      else s
    match h.openLibraries blend_file with
    | none => ([.openMainfile blend_file], none)
    | some libraries =>
      -- the resave as compressed is commented out in the source:
      -- it would emit `saveAsMainfile blend_file` here.
      ([.openMainfile blend_file, .queryLibraries blend_file],
       some { s1 with
         results_libs :=
           if libraries.length == 0 then
             dictInsert s1.results_libs blend_file []
           else
             dictInsert s1.results_libs blend_file libraries })

/-- The inspection loop over the discovered files. -/
def inspectLoop (h : HostAPI) : List String → ScriptState →
    List HostEvent × Option ScriptState
  | [], s => ([], some s)
  | f :: fs, s =>
    match inspectOne h s f with
    | (evs, none) => (evs, none)
    | (evs, some s1) =>
      let r := inspectLoop h fs s1
      (evs ++ r.1, r.2)

/-- 50 MiB, the size-warning threshold. -/
def sizeThreshold : Nat := 50 * 1024 * 1024

/-- Round `num / den` to the nearest integer, ties to even (the rounding
Python's float formatting performs). -/
def roundHalfEven (num den : Nat) : Nat :=
  let q := num / den
  let r := num % den
  if 2 * r < den then q
  else if den < 2 * r then q + 1
  else if q % 2 == 0 then q else q + 1

/-- Two-digit zero-padded rendering of `n < 100`. -/
def twoDigits (n : Nat) : String :=
  (if n < 10 then "0" else "") ++ toString n

/-- Python `f"{size / (1024 * 1024):.2f}"`: the size in mebibytes, two decimal
places (modelled by exact rounding of the rational value). -/
def formatMB (size : Nat) : String :=
  let cents := roundHalfEven (size * 100) (1024 * 1024)
  toString (cents / 100) ++ "." ++ twoDigits (cents % 100)

/-- The warning line printed for one oversized file. -/
def warnLine (blend_file : String) (size : Nat) : String :=
  "Warning: File " ++ blend_file ++ " is " ++ formatMB size ++ "MB"

/-- The per-file library report: for every entry with a non-empty list,
the file header line followed by one indented line per library. -/
def reportLibs (results_libs : List (String × List String)) : List String :=
  results_libs.foldl
    (fun acc e =>
      if e.2.isEmpty then acc
      else acc ++ ("Blend File: " ++ e.1) :: e.2.map (fun lib => "    - " ++ lib))
    []

/-- The size-warning report lines. -/
def reportSize (results_size : List (String × Nat)) : List String :=
  results_size.map fun e => warnLine e.1 e.2

/-- All lines printed after the inspection loop. -/
def report (s : ScriptState) : List String :=
  "Final Results:" :: (reportLibs s.results_libs ++ reportSize s.results_size)

/-- The whole script: discover the files, run the inspection loop from
empty dictionaries, and (when no exception aborted the run) print the
report.  Returns the host-event trace and the printed lines. -/
def runScript (h : HostAPI) (directory : String) (fs : FSTree) :
    List HostEvent × Option (List String) :=
  let blend_files := find_blend_files directory fs
  match inspectLoop h blend_files ⟨[], []⟩ with
  | (evs, none) => (evs, none)
  | (evs, some st) => (evs, some (report st))

/-- The active document after a trace of host events: each
`openMainfile` fully replaces it. -/
def activeDoc (evs : List HostEvent) : Option String :=
  evs.foldl
    (fun acc e =>
      match e with
      | .openMainfile p => some p
      | _ => acc)
    none

/-- A small concrete tree used to instantiate the theorems: two files at
the root (one matching), and a subdirectory holding a file one byte
above the 50 MiB boundary and a file exactly at it. -/
def exTree : FSTree :=
  .node [("a.blend", 10), ("notes.txt", 5)]
    [("sub", .node [("b.BLEND", 52428801), ("c.blend", 52428800)] [])]

/-- A host consistent with `exTree`: sizes as stored, `a.blend` linking
two libraries, the other files none. -/
def exHost : HostAPI where
  getsize := fun p =>
    if p = "d/a.blend" then some 10
    else if p = "d/sub/b.BLEND" then some 52428801
    else if p = "d/sub/c.blend" then some 52428800
    else none
  openLibraries := fun p =>
    if p = "d/a.blend" then some ["lib1.blend", "lib2.blend"]
    else if p = "d/sub/b.BLEND" then some []
    else if p = "d/sub/c.blend" then some []
    else none

/-- A host agreeing with `exHost` on every discovered path of `exTree`
but differing elsewhere. -/
def exHost2 : HostAPI where
  getsize := fun p =>
    if p = "d/other.blend" then some 7 else exHost.getsize p
  openLibraries := fun p =>
    if p = "d/other.blend" then some ["x.blend"] else exHost.openLibraries p

/-- A host whose load of `d/sub/b.BLEND` fails. -/
def exHostFail : HostAPI where
  getsize := exHost.getsize
  openLibraries := fun p =>
    if p = "d/sub/b.BLEND" then none else exHost.openLibraries p

/-- The dictionaries a run of `exHost` over `exTree` accumulates. -/
def exState : ScriptState where
  results_libs := [("d/a.blend", ["lib1.blend", "lib2.blend"]),
    ("d/sub/b.BLEND", []), ("d/sub/c.blend", [])]
  results_size := [("d/sub/b.BLEND", 52428801)]

/-- The host events of that run. -/
def exTrace : List HostEvent :=
  [.openMainfile "d/a.blend", .queryLibraries "d/a.blend",
   .openMainfile "d/sub/b.BLEND", .queryLibraries "d/sub/b.BLEND",
   .openMainfile "d/sub/c.blend", .queryLibraries "d/sub/c.blend"]

/-! ## Dictionary lemmas -/

theorem dictInsert_of_lookup_none {α : Type} {d : List (String × α)} {k : String}
    (hk : dictLookup d k = none) (v : α) : dictInsert d k v = d ++ [(k, v)] := by
  unfold dictLookup at hk
  unfold dictInsert
  cases hfind : d.find? (fun e => e.1 == k) with
  | none => simp [hfind]
  | some e => simp [hfind] at hk

theorem dictLookup_nil {α : Type} (k : String) :
    dictLookup ([] : List (String × α)) k = none := rfl

theorem dictLookup_append {α : Type} (d1 d2 : List (String × α)) (k : String) :
    dictLookup (d1 ++ d2) k =
      (dictLookup d1 k).orElse (fun _ => dictLookup d2 k) := by
  unfold dictLookup
  rw [List.find?_append]
  cases d1.find? (fun e => e.1 == k) <;> simp

theorem dictLookup_single {α : Type} (k k' : String) (v : α) :
    dictLookup [(k, v)] k' = if k' = k then some v else none := by
  unfold dictLookup
  by_cases h : k' = k
  · simp [h, List.find?_cons]
  · simp [h, List.find?_cons, List.find?_nil, Ne.symm h]

theorem dictLookup_insert_self {α : Type} (d : List (String × α)) (k : String) (v : α) :
    dictLookup (dictInsert d k v) k = some v := by
  unfold dictInsert
  cases hfind : d.find? (fun e => e.1 == k) with
  | none =>
    simp only [hfind, Option.isSome_none, Bool.false_eq_true, if_false]
    have hnone : dictLookup d k = none := by
      unfold dictLookup; rw [hfind]; rfl
    rw [dictLookup_append, hnone, dictLookup_single]
    simp
  | some e =>
    simp only [hfind, Option.isSome_some, if_true]
    have : (d.find? (fun e => e.1 == k)).isSome := by rw [hfind]; rfl
    clear hfind
    induction d with
    | nil => simp [List.find?_nil] at this
    | cons hd tl ih =>
      rw [List.find?_cons] at this
      by_cases hhd : hd.1 = k
      · simp only [List.map_cons, hhd, beq_self_eq_true, if_true]
        unfold dictLookup
        simp [List.find?_cons]
      · have hne : (hd.1 == k) = false := by simp [hhd]
        simp only [hne, cond_false] at this
        simp only [List.map_cons, hne, Bool.false_eq_true, if_false]
        unfold dictLookup at ih ⊢
        rw [List.find?_cons, hne]
        exact ih this

theorem dictLookup_insert_ne {α : Type} (d : List (String × α)) {k k' : String}
    (hne : k' ≠ k) (v : α) :
    dictLookup (dictInsert d k v) k' = dictLookup d k' := by
  unfold dictInsert
  cases hfind : d.find? (fun e => e.1 == k) with
  | none =>
    simp only [hfind, Option.isSome_none, Bool.false_eq_true, if_false]
    rw [dictLookup_append, dictLookup_single]
    simp only [hne, if_false]
    cases dictLookup d k' <;> rfl
  | some e =>
    simp only [hfind, Option.isSome_some, if_true]
    clear hfind
    induction d with
    | nil => rfl
    | cons hd tl ih =>
      by_cases hhd : hd.1 = k
      · simp only [List.map_cons, hhd, beq_self_eq_true, if_true]
        unfold dictLookup
        rw [List.find?_cons, List.find?_cons]
        have h1 : (k == k') = false := by simp [Ne.symm hne]
        have h2 : (hd.1 == k') = false := by simp [hhd, Ne.symm hne]
        simp only [h1, h2, cond_false]
        exact ih
      · have hne2 : (hd.1 == k) = false := by simp [hhd]
        simp only [List.map_cons, hne2, Bool.false_eq_true, if_false]
        unfold dictLookup
        rw [List.find?_cons, List.find?_cons]
        cases hc : (hd.1 == k') with
        | true => simp [cond_true]
        | false => simp only [cond_false]; exact ih

/-! ## Inspection-step lemmas -/

theorem inspectOne_succ {h : HostAPI} {s : ScriptState} {f : String}
    {evs : List HostEvent} {s1 : ScriptState}
    (hio : inspectOne h s f = (evs, some s1)) :
    ∃ sz libs, h.getsize f = some sz ∧ h.openLibraries f = some libs ∧
      evs = [.openMainfile f, .queryLibraries f] ∧
      s1.results_libs = dictInsert s.results_libs f libs ∧
      s1.results_size =
        (if 50 * 1024 * 1024 < sz then dictInsert s.results_size f sz
         else s.results_size) := by
  cases hg : h.getsize f with
  | none => simp [inspectOne, hg] at hio
  | some sz =>
    cases ho : h.openLibraries f with
    | none => simp [inspectOne, hg, ho] at hio
    | some libs =>
      simp only [inspectOne, hg, ho, Prod.mk.injEq, Option.some.injEq] at hio
      obtain ⟨hevs, hs1⟩ := hio
      refine ⟨sz, libs, rfl, rfl, hevs.symm, ?_, ?_⟩
      · rw [← hs1]
        cases hl : libs with
        | nil => simp; split <;> rfl
        | cons a as => simp; split <;> rfl
      · rw [← hs1]
        by_cases hc : 50 * 1024 * 1024 < sz
        · simp [hc, gt_iff_lt]
        · simp [hc, gt_iff_lt]

theorem inspectOne_fail {h : HostAPI} {s : ScriptState} {f : String}
    (hfail : h.getsize f = none ∨ h.openLibraries f = none) :
    (inspectOne h s f).2 = none := by
  rcases hfail with hg | ho
  · simp [inspectOne, hg]
  · cases hg : h.getsize f with
    | none => simp [inspectOne, hg]
    | some sz => simp [inspectOne, hg, ho]

theorem inspectOne_total {h : HostAPI} {s : ScriptState} {f : String} {sz : Nat}
    {libs : List String}
    (hg : h.getsize f = some sz) (ho : h.openLibraries f = some libs) :
    ∃ s1, (inspectOne h s f).2 = some s1 := by
  simp [inspectOne, hg, ho]

theorem inspectOne_no_save {h : HostAPI} {s : ScriptState} {f : String} :
    ∀ e ∈ (inspectOne h s f).1, modifiesDisk e = false := by
  intro e he
  cases hg : h.getsize f with
  | none => simp [inspectOne, hg] at he
  | some sz =>
    cases ho : h.openLibraries f with
    | none =>
      simp only [inspectOne, hg, ho, List.mem_singleton] at he
      subst he; rfl
    | some libs =>
      simp only [inspectOne, hg, ho, List.mem_cons, List.mem_singleton,
        List.not_mem_nil, or_false] at he
      rcases he with rfl | rfl <;> rfl

theorem inspectLoop_fail {h : HostAPI} {files : List String} {f : String}
    (hf : f ∈ files)
    (hfail : h.getsize f = none ∨ h.openLibraries f = none) :
    ∀ s : ScriptState, (inspectLoop h files s).2 = none := by
  induction files with
  | nil => cases hf
  | cons g fs ih =>
    intro s
    rw [inspectLoop]
    cases hio : inspectOne h s g with
    | mk evs o =>
      cases o with
      | none => rfl
      | some s1 =>
        rcases List.mem_cons.mp hf with rfl | hmem
        · have hfe := inspectOne_fail (s := s) hfail
          rw [hio] at hfe
          simp at hfe
        · exact ih hmem s1

theorem inspectLoop_no_save {h : HostAPI} {files : List String} :
    ∀ (s : ScriptState), ∀ e ∈ (inspectLoop h files s).1, modifiesDisk e = false := by
  induction files with
  | nil => intro s e he; simp [inspectLoop] at he
  | cons f fs ih =>
    intro s e he
    rw [inspectLoop] at he
    cases hio : inspectOne h s f with
    | mk evs o =>
      rw [hio] at he
      cases o with
      | none =>
        apply inspectOne_no_save (h := h) (s := s) (f := f) e
        rw [hio]
        exact he
      | some s1 =>
        rcases List.mem_append.mp he with hl | hr
        · apply inspectOne_no_save (h := h) (s := s) (f := f) e
          rw [hio]
          exact hl
        · exact ih s1 e hr

theorem inspectLoop_events {h : HostAPI} :
    ∀ (files : List String) (s0 : ScriptState) (evs : List HostEvent)
      (st : ScriptState),
      inspectLoop h files s0 = (evs, some st) →
      evs = files.flatMap fun f => [.openMainfile f, .queryLibraries f] := by
  intro files
  induction files with
  | nil =>
    intro s0 evs st hrun
    simp only [inspectLoop, Prod.mk.injEq] at hrun
    simp [← hrun.1]
  | cons f fs ih =>
    intro s0 evs st hrun
    rw [inspectLoop] at hrun
    cases hio : inspectOne h s0 f with
    | mk evs1 o =>
      rw [hio] at hrun
      cases o with
      | none => simp at hrun
      | some s1 =>
        cases hrec : inspectLoop h fs s1 with
        | mk evs2 o2 =>
          simp only [hrec, Prod.mk.injEq] at hrun
          obtain ⟨hevs, ho2⟩ := hrun
          subst ho2
          obtain ⟨sz, libs, _, _, hevs1, _, _⟩ := inspectOne_succ hio
          rw [← hevs, hevs1, ih s1 evs2 st hrec]
          simp [List.flatMap_cons]

/-- The size dictionary after a successful loop, seen through lookup:
untouched for paths not in the list; for a processed path, the measured
size when strictly above the threshold, otherwise unchanged. -/
theorem inspectLoop_size_lookup {h : HostAPI} :
    ∀ (files : List String) (s0 : ScriptState) (evs : List HostEvent)
      (st : ScriptState),
      inspectLoop h files s0 = (evs, some st) → ∀ p : String,
      (p ∉ files →
        dictLookup st.results_size p = dictLookup s0.results_size p)
      ∧ (p ∈ files → ∃ sz, h.getsize p = some sz ∧
          dictLookup st.results_size p =
            (if 50 * 1024 * 1024 < sz then some sz
             else dictLookup s0.results_size p)) := by
  intro files
  induction files with
  | nil =>
    intro s0 evs st hrun p
    simp only [inspectLoop, Prod.mk.injEq, Option.some.injEq] at hrun
    rw [← hrun.2]
    exact ⟨fun _ => rfl, fun hmem => absurd hmem (List.not_mem_nil p)⟩
  | cons f fs ih =>
    intro s0 evs st hrun p
    rw [inspectLoop] at hrun
    cases hio : inspectOne h s0 f with
    | mk evs1 o =>
      rw [hio] at hrun
      cases o with
      | none => simp at hrun
      | some s1 =>
        cases hrec : inspectLoop h fs s1 with
        | mk evs2 o2 =>
          simp only [hrec, Prod.mk.injEq] at hrun
          obtain ⟨hevs, ho2⟩ := hrun
          subst ho2
          obtain ⟨sz, libs, hg, ho, _, _, hsize⟩ := inspectOne_succ hio
          have hs1p : ∀ q : String, q ≠ f →
              dictLookup s1.results_size q = dictLookup s0.results_size q := by
            intro q hq
            rw [hsize]
            by_cases hc : 50 * 1024 * 1024 < sz
            · rw [if_pos hc, dictLookup_insert_ne _ hq]
            · rw [if_neg hc]
          have hs1f : dictLookup s1.results_size f =
              (if 50 * 1024 * 1024 < sz then some sz
               else dictLookup s0.results_size f) := by
            rw [hsize]
            by_cases hc : 50 * 1024 * 1024 < sz
            · rw [if_pos hc, if_pos hc, dictLookup_insert_self]
            · rw [if_neg hc, if_neg hc]
          constructor
          · intro hnmem
            have hpf : p ≠ f := fun hh => hnmem (hh ▸ List.mem_cons_self f fs)
            have hpfs : p ∉ fs := fun hh => hnmem (List.mem_cons_of_mem f hh)
            rw [(ih s1 evs2 st hrec p).1 hpfs, hs1p p hpf]
          · intro hmem
            by_cases hpf : p = f
            · subst hpf
              refine ⟨sz, hg, ?_⟩
              by_cases hpfs : p ∈ fs
              · obtain ⟨sz', hg', hlook⟩ := (ih s1 evs2 st hrec p).2 hpfs
                rw [hg] at hg'
                obtain rfl : sz = sz' := Option.some.inj hg'
                rw [hlook, hs1f]
                by_cases hc : 50 * 1024 * 1024 < sz
                · rw [if_pos hc, if_pos hc]
                · rw [if_neg hc, if_neg hc]
              · rw [(ih s1 evs2 st hrec p).1 hpfs, hs1f]
            · have hpfs : p ∈ fs := by
                rcases List.mem_cons.mp hmem with hh | hh
                · exact absurd hh hpf
                · exact hh
              obtain ⟨sz', hg', hlook⟩ := (ih s1 evs2 st hrec p).2 hpfs
              exact ⟨sz', hg', by rw [hlook, hs1p p hpf]⟩

/-- A successful loop over distinct, fresh paths appends one library
entry per path in processing order, and one size entry per oversized
path in processing order. -/
theorem inspectLoop_succ_results {h : HostAPI} :
    ∀ (files : List String) (s0 : ScriptState) (evs : List HostEvent)
      (st : ScriptState),
      inspectLoop h files s0 = (evs, some st) →
      files.Nodup →
      (∀ f ∈ files, dictLookup s0.results_libs f = none) →
      (∀ f ∈ files, dictLookup s0.results_size f = none) →
      st.results_libs = s0.results_libs ++
          files.map (fun f => (f, (h.openLibraries f).getD []))
      ∧ st.results_size = s0.results_size ++
          (files.filter fun f =>
              decide (50 * 1024 * 1024 < (h.getsize f).getD 0)).map
            (fun f => (f, (h.getsize f).getD 0)) := by
  intro files
  induction files with
  | nil =>
    intro s0 evs st hrun _ _ _
    simp only [inspectLoop, Prod.mk.injEq, Option.some.injEq] at hrun
    rw [← hrun.2]
    simp
  | cons f fs ih =>
    intro s0 evs st hrun hnd hfl hfs
    rw [inspectLoop] at hrun
    cases hio : inspectOne h s0 f with
    | mk evs1 o =>
      rw [hio] at hrun
      cases o with
      | none => simp at hrun
      | some s1 =>
        cases hrec : inspectLoop h fs s1 with
        | mk evs2 o2 =>
          simp only [hrec, Prod.mk.injEq] at hrun
          obtain ⟨hevs, ho2⟩ := hrun
          subst ho2
          obtain ⟨sz, libs, hg, ho, _, hlibs, hsize⟩ := inspectOne_succ hio
          have hfmem : f ∈ f :: fs := List.mem_cons_self f fs
          have hnfs : f ∉ fs := (List.nodup_cons.mp hnd).1
          have hndfs : fs.Nodup := (List.nodup_cons.mp hnd).2
          have hlibs1 : s1.results_libs = s0.results_libs ++ [(f, libs)] := by
            rw [hlibs, dictInsert_of_lookup_none (hfl f hfmem)]
          have hsize1 : s1.results_size =
              (if 50 * 1024 * 1024 < sz then s0.results_size ++ [(f, sz)]
               else s0.results_size) := by
            rw [hsize]
            by_cases hc : 50 * 1024 * 1024 < sz
            · rw [if_pos hc, if_pos hc, dictInsert_of_lookup_none (hfs f hfmem)]
            · rw [if_neg hc, if_neg hc]
          have hfl1 : ∀ g ∈ fs, dictLookup s1.results_libs g = none := by
            intro g hgmem
            have hgf : g ≠ f := fun hh => hnfs (hh ▸ hgmem)
            rw [hlibs1, dictLookup_append, hfl g (List.mem_cons_of_mem f hgmem),
              dictLookup_single]
            simp [hgf]
          have hfs1 : ∀ g ∈ fs, dictLookup s1.results_size g = none := by
            intro g hgmem
            have hgf : g ≠ f := fun hh => hnfs (hh ▸ hgmem)
            rw [hsize1]
            by_cases hc : 50 * 1024 * 1024 < sz
            · rw [if_pos hc, dictLookup_append,
                hfs g (List.mem_cons_of_mem f hgmem), dictLookup_single]
              simp [hgf]
            · rw [if_neg hc]
              exact hfs g (List.mem_cons_of_mem f hgmem)
          obtain ⟨ihl, ihs⟩ := ih s1 evs2 st hrec hndfs hfl1 hfs1
          constructor
          · rw [ihl, hlibs1, List.append_assoc]
            congr 1
            simp [ho]
          · rw [ihs, hsize1]
            by_cases hc : 50 * 1024 * 1024 < sz
            · rw [if_pos hc, List.append_assoc]
              have hfc : List.filter
                  (fun g => decide (50 * 1024 * 1024 < (h.getsize g).getD 0))
                  (f :: fs)
                  = f :: List.filter
                      (fun g => decide (50 * 1024 * 1024 < (h.getsize g).getD 0))
                      fs := by
                rw [List.filter_cons]
                simp [hg, hc]
              rw [hfc]
              simp [hg]
            · rw [if_neg hc]
              have hfc : List.filter
                  (fun g => decide (50 * 1024 * 1024 < (h.getsize g).getD 0))
                  (f :: fs)
                  = List.filter
                      (fun g => decide (50 * 1024 * 1024 < (h.getsize g).getD 0))
                      fs := by
                rw [List.filter_cons]
                simp [hg, hc]
              rw [hfc]

/-! ## Report lemmas -/

/-- The library report is the concatenation, in dictionary order, of one
block per entry with a non-empty list: the header line followed by one
indented line per library path, in the host-reported order. -/
theorem reportLibs_eq (d : List (String × List String)) :
    reportLibs d = (d.filter fun e => !e.2.isEmpty).flatMap
      (fun e => ("Blend File: " ++ e.1) :: e.2.map (fun lib => "    - " ++ lib)) := by
  have go : ∀ (l : List (String × List String)) (acc : List String),
      l.foldl
        (fun acc e =>
          if e.2.isEmpty then acc
          else acc ++ ("Blend File: " ++ e.1) :: e.2.map (fun lib => "    - " ++ lib))
        acc
      = acc ++ (l.filter fun e => !e.2.isEmpty).flatMap
          (fun e =>
            ("Blend File: " ++ e.1) :: e.2.map (fun lib => "    - " ++ lib)) := by
    intro l
    induction l with
    | nil => intro acc; simp
    | cons e l ihl =>
      intro acc
      rw [List.foldl_cons, List.filter_cons]
      by_cases he : e.2.isEmpty
      · simp only [he, if_true, Bool.not_true, Bool.false_eq_true, if_false]
        exact ihl acc
      · simp only [he, Bool.false_eq_true, if_false, Bool.not_false, if_true,
          List.flatMap_cons]
        rw [ihl]
        simp [List.append_assoc]
  unfold reportLibs
  exact go d []

theorem header_inj {a b : String}
    (hab : "Blend File: " ++ a = "Blend File: " ++ b) : a = b := by
  have hd := congrArg String.data hab
  rw [String.data_append, String.data_append] at hd
  exact String.ext (List.append_cancel_left hd)

theorem dash_ne_header (a b : String) :
    "    - " ++ a ≠ "Blend File: " ++ b := by
  intro hab
  have hd := congrArg String.data hab
  rw [String.data_append, String.data_append] at hd
  have h1 : String.data "    - " = [' ', ' ', ' ', ' ', '-', ' '] := rfl
  have h2 : String.data "Blend File: " =
      ['B', 'l', 'e', 'n', 'd', ' ', 'F', 'i', 'l', 'e', ':', ' '] := rfl
  rw [h1, h2] at hd
  simp at hd

/-! ## Active-document lemmas -/

/-- If a trace ends up with a loaded document, the document it ends with
does not depend on what was loaded before the trace. -/
theorem activeDoc_foldl_of_isSome :
    ∀ (l : List HostEvent) (a : Option String), (activeDoc l).isSome →
      l.foldl
        (fun acc e =>
          match e with
          | .openMainfile p => some p
          | _ => acc) a = activeDoc l := by
  intro l
  induction l with
  | nil => intro a hs; simp [activeDoc] at hs
  | cons e l ihl =>
    intro a hs
    cases e with
    | openMainfile p =>
      simp only [activeDoc, List.foldl_cons]
    | queryLibraries p =>
      unfold activeDoc at hs ⊢
      rw [List.foldl_cons] at hs ⊢
      exact ihl a hs
    | saveAsMainfile p =>
      unfold activeDoc at hs ⊢
      rw [List.foldl_cons] at hs ⊢
      exact ihl a hs

/-- In the trace of a successful run, every library query happens while
the queried file is the active document. -/
theorem flatMap_trace_query_active :
    ∀ (files : List String) (pre post : List HostEvent) (q : String),
      (files.flatMap fun f =>
          [HostEvent.openMainfile f, HostEvent.queryLibraries f])
        = pre ++ HostEvent.queryLibraries q :: post →
      activeDoc pre = some q := by
  intro files
  induction files with
  | nil =>
    intro pre post q hdec
    simp only [List.flatMap_nil] at hdec
    exact absurd hdec.symm (List.append_ne_nil_of_right_ne_nil pre (by simp))
  | cons f fs ihf =>
    intro pre post q hdec
    simp only [List.flatMap_cons, List.cons_append, List.nil_append] at hdec
    cases pre with
    | nil => simp at hdec
    | cons e1 pre1 =>
      simp only [List.cons_append, List.cons.injEq] at hdec
      obtain ⟨he1, hdec1⟩ := hdec
      cases pre1 with
      | nil =>
        simp only [List.nil_append, List.cons.injEq] at hdec1
        obtain ⟨hq, _⟩ := hdec1
        obtain rfl : f = q := HostEvent.queryLibraries.inj hq
        rw [← he1]
        rfl
      | cons e2 pre2 =>
        simp only [List.cons_append, List.cons.injEq] at hdec1
        obtain ⟨he2, hdec2⟩ := hdec1
        have hpre2 : activeDoc pre2 = some q := ihf pre2 post q hdec2
        have hsome : (activeDoc pre2).isSome := by rw [hpre2]; rfl
        rw [← he1, ← he2]
        unfold activeDoc
        rw [List.foldl_cons, List.foldl_cons]
        rw [activeDoc_foldl_of_isSome pre2 _ hsome]
        exact hpre2

/-! ## Discovery lemmas -/

/-- Discovery returns exactly as many paths as there are `.blend`-named
files in the whole tree. -/
theorem find_blend_files_length : ∀ (directory : String) (t : FSTree),
    (find_blend_files directory t).length = countBlend t
  | directory, .node files dirs => by
    rw [find_blend_files, countBlend, List.length_append, List.length_map]
    congr 1
    rw [List.length_flatten, List.map_map]
    congr 1
    apply List.map_congr_left
    intro d hd
    exact find_blend_files_length (joinPath directory d.1.1) d.1.2
termination_by directory t => sizeOf t
decreasing_by
  obtain ⟨⟨dn, dt⟩, hdm⟩ := d
  have h1 := List.sizeOf_lt_of_mem hdm
  simp only [FSTree.node.sizeOf_spec, Prod.mk.sizeOf_spec] at h1 ⊢
  omega

/-- Every discovered path comes from a `.blend`-named file of the tree. -/
theorem find_blend_files_sound : ∀ (directory : String) (t : FSTree) (p : String),
    p ∈ find_blend_files directory t →
      ∃ name sz, HasFile t directory p name sz ∧ isBlendName name = true
  | directory, .node files dirs, p => by
    rw [find_blend_files]
    intro hp
    rcases List.mem_append.mp hp with hl | hr
    · obtain ⟨f, hf, hpf⟩ := List.mem_map.mp hl
      obtain ⟨hfmem, hfblend⟩ := List.mem_filter.mp hf
      refine ⟨f.1, f.2, ?_, hfblend⟩
      rw [← hpf]
      exact HasFile.here (by simpa using hfmem)
    · obtain ⟨l, hl, hpl⟩ := List.mem_flatten.mp hr
      obtain ⟨d, hd, hld⟩ := List.mem_map.mp hl
      rw [← hld] at hpl
      obtain ⟨name, sz, hhf, hbl⟩ :=
        find_blend_files_sound (joinPath directory d.1.1) d.1.2 p hpl
      exact ⟨name, sz, HasFile.there (by simpa using d.2) hhf, hbl⟩
termination_by directory t p => sizeOf t
decreasing_by
  obtain ⟨⟨dn, dt⟩, hdm⟩ := d
  have h1 := List.sizeOf_lt_of_mem hdm
  simp only [FSTree.node.sizeOf_spec, Prod.mk.sizeOf_spec] at h1 ⊢
  omega

/-- Every `.blend`-named file of the tree is discovered. -/
theorem find_blend_files_complete {t : FSTree} {root p name : String} {sz : Nat}
    (hhf : HasFile t root p name sz) :
    isBlendName name = true → p ∈ find_blend_files root t := by
  induction hhf with
  | here hfmem =>
    rename_i files2 dirs2 root2 name2 sz2
    intro hbl
    rw [find_blend_files]
    apply List.mem_append.mpr
    left
    apply List.mem_map.mpr
    exact ⟨(name2, sz2), List.mem_filter.mpr ⟨hfmem, hbl⟩, rfl⟩
  | there hdmem hsub ihsub =>
    rename_i files2 dirs2 root2 dname p2 name2 subt sz2
    intro hbl
    rw [find_blend_files]
    apply List.mem_append.mpr
    right
    apply List.mem_flatten.mpr
    refine ⟨find_blend_files (joinPath root2 dname) subt, ?_, ihsub hbl⟩
    apply List.mem_map.mpr
    exact ⟨⟨(dname, subt), hdmem⟩, List.mem_attach _ _, rfl⟩

/-- A path is discovered iff it is the joined path of a file somewhere
in the tree whose name matches the `.blend` extension. -/
theorem mem_find_blend_files (directory : String) (t : FSTree) (p : String) :
    p ∈ find_blend_files directory t ↔
      ∃ name sz, HasFile t directory p name sz ∧ isBlendName name = true := by
  constructor
  · exact find_blend_files_sound directory t p
  · rintro ⟨name, sz, hhf, hbl⟩
    exact find_blend_files_complete hhf hbl

/-- The script `runScript` unfolded to its match on the loop result. -/
theorem runScript_eq (h : HostAPI) (directory : String) (t : FSTree) :
    runScript h directory t =
      match inspectLoop h (find_blend_files directory t) ⟨[], []⟩ with
      | (evs, none) => (evs, none)
      | (evs, some st) => (evs, some (report st)) := rfl

/-- A successful loop makes the script print the report. -/
theorem runScript_succ {h : HostAPI} {directory : String} {t : FSTree}
    {evs : List HostEvent} {st : ScriptState}
    (hrun : inspectLoop h (find_blend_files directory t) ⟨[], []⟩ =
      (evs, some st)) :
    runScript h directory t = (evs, some (report st)) := by
  rw [runScript_eq, hrun]

/-- An aborted loop makes the script print nothing. -/
theorem runScript_abort {h : HostAPI} {directory : String} {t : FSTree}
    {evs : List HostEvent}
    (hrun : inspectLoop h (find_blend_files directory t) ⟨[], []⟩ =
      (evs, none)) :
    runScript h directory t = (evs, none) := by
  rw [runScript_eq, hrun]

/-- The event trace of the script is the trace of its loop. -/
theorem runScript_fst (h : HostAPI) (directory : String) (t : FSTree) :
    (runScript h directory t).1 =
      (inspectLoop h (find_blend_files directory t) ⟨[], []⟩).1 := by
  rw [runScript_eq]
  cases inspectLoop h (find_blend_files directory t) ⟨[], []⟩ with
  | mk evs o => cases o <;> rfl

/-- The loop only consults the host on the listed files. -/
theorem inspectLoop_congr {h1 h2 : HostAPI} :
    ∀ (files : List String) (s : ScriptState),
      (∀ f ∈ files,
        h1.getsize f = h2.getsize f ∧ h1.openLibraries f = h2.openLibraries f) →
      inspectLoop h1 files s = inspectLoop h2 files s := by
  intro files
  induction files with
  | nil => intro s _; rfl
  | cons f fs ih =>
    intro s hagree
    rw [inspectLoop, inspectLoop]
    have hone : inspectOne h1 s f = inspectOne h2 s f := by
      unfold inspectOne
      rw [(hagree f (List.mem_cons_self f fs)).1,
        (hagree f (List.mem_cons_self f fs)).2]
    rw [hone]
    cases inspectOne h2 s f with
    | mk evs o =>
      cases o with
      | none => rfl
      | some s1 =>
        show (evs ++ (inspectLoop h1 fs s1).1, (inspectLoop h1 fs s1).2)
          = (evs ++ (inspectLoop h2 fs s1).1, (inspectLoop h2 fs s1).2)
        rw [ih s1 (fun g hg => hagree g (List.mem_cons_of_mem f hg))]

/-! ## Claims -/

/-- C1: a size warning is recorded for a discovered file iff its byte
size is strictly greater than 50 * 1024 * 1024 (so a file exactly at the
50 MiB boundary records none, and one byte above records the measured
size), and every recorded warning is printed as a line holding the file
path and the size in mebibytes to two decimal places. -/
theorem size_warning_threshold_spec (h : HostAPI) (directory : String)
    (t : FSTree) (evs : List HostEvent) (st : ScriptState)
    (hrun : inspectLoop h (find_blend_files directory t) ⟨[], []⟩ =
      (evs, some st)) :
    (∀ p ∈ find_blend_files directory t, ∃ sz, h.getsize p = some sz ∧
        dictLookup st.results_size p =
          (if 50 * 1024 * 1024 < sz then some sz else none))
    ∧ (∀ p v, (p, v) ∈ st.results_size → warnLine p v ∈ report st)
    ∧ runScript h directory t = (evs, some (report st)) := by
  refine ⟨?_, ?_, ?_⟩
  · intro p hp
    obtain ⟨sz, hg, hlook⟩ := (inspectLoop_size_lookup _ _ _ _ hrun p).2 hp
    exact ⟨sz, hg, hlook⟩
  · intro p v hmem
    unfold report
    apply List.mem_cons_of_mem
    apply List.mem_append.mpr
    right
    exact List.mem_map.mpr ⟨(p, v), hmem, rfl⟩
  · exact runScript_succ hrun

/-- C2: discovery returns exactly the `.blend`-named files reachable by
recursing into all subdirectories: the number of returned paths equals
the number of matching files of the tree (N, regardless of how many
non-matching entries it holds), and a path is returned iff it is the
joined path of a matching file. -/
theorem discovery_spec (directory : String) (t : FSTree) :
    (find_blend_files directory t).length = countBlend t
    ∧ ∀ p : String, p ∈ find_blend_files directory t ↔
        ∃ name sz, HasFile t directory p name sz ∧ isBlendName name = true :=
  ⟨find_blend_files_length directory t, mem_find_blend_files directory t⟩

/-- C5: the script has no handler: a raised size read or host load error
on any discovered file aborts the whole run (no printed output); and the
size-threshold comparison is not an error path, as an iteration whose
host calls succeed always completes whatever the comparison decides. -/
theorem no_error_handling_spec (h : HostAPI) (directory : String) (t : FSTree)
    (f : String) (hf : f ∈ find_blend_files directory t) :
    ((h.getsize f = none ∨ h.openLibraries f = none) →
      (runScript h directory t).2 = none)
    ∧ ∀ (s : ScriptState) (sz : Nat) (libs : List String),
        h.getsize f = some sz → h.openLibraries f = some libs →
        ∃ s1, (inspectOne h s f).2 = some s1 := by
  constructor
  · intro hfail
    have habort := inspectLoop_fail hf hfail (⟨[], []⟩ : ScriptState)
    cases hloop : inspectLoop h (find_blend_files directory t) ⟨[], []⟩ with
    | mk evs o =>
      rw [hloop] at habort
      simp only at habort
      subst habort
      rw [runScript_abort hloop]
  · intro s sz libs hg ho
    exact inspectOne_total hg ho

/-- C6: the printed report and the event trace are a function of the
tree and of the host responses on the discovered files alone, and every
run starts from empty dictionaries, so running twice over an unchanged
tree with unchanged host behaviour yields identical output. -/
theorem determinism_spec (h1 h2 : HostAPI) (directory : String) (t : FSTree)
    (hagree : ∀ f ∈ find_blend_files directory t,
      h1.getsize f = h2.getsize f ∧ h1.openLibraries f = h2.openLibraries f) :
    runScript h1 directory t = runScript h2 directory t := by
  rw [runScript_eq, runScript_eq,
    inspectLoop_congr (find_blend_files directory t) ⟨[], []⟩ hagree]

/-- C7: no event of any run, completed or aborted, writes a file on
disk: the resave capability is never exercised, the host is only asked
to load documents and report their libraries. -/
theorem no_disk_writes_spec (h : HostAPI) (directory : String) (t : FSTree) :
    ∀ e ∈ (runScript h directory t).1, modifiesDisk e = false := by
  intro e he
  rw [runScript_fst] at he
  exact inspectLoop_no_save _ e he

/-- C9: a failed host load of any discovered file leaves the run with no
printed output at all: printing only happens after the loop, so results
accumulated for earlier files and the failing file's own size warning
are never printed. -/
theorem abort_no_output_spec (h : HostAPI) (directory : String) (t : FSTree)
    (f : String) (hf : f ∈ find_blend_files directory t)
    (hopen : h.openLibraries f = none) :
    (runScript h directory t).2 = none := by
  have habort := inspectLoop_fail hf (Or.inr hopen) (⟨[], []⟩ : ScriptState)
  cases hloop : inspectLoop h (find_blend_files directory t) ⟨[], []⟩ with
  | mk evs o =>
    rw [hloop] at habort
    simp only at habort
    subst habort
    rw [runScript_abort hloop]

/-- C3: after a successful run over distinct discovered paths, the
libraries dictionary holds, in discovery (insertion) order, each
discovered path mapped to the host-reported reference list; the size
dictionary follows the same order restricted to oversized files; and the
library report is one block per non-empty entry, in that order, the
header line followed by exactly the entry's K reference paths, indented,
in the order the host reported them. -/
theorem libs_report_order_spec (h : HostAPI) (directory : String) (t : FSTree)
    (evs : List HostEvent) (st : ScriptState)
    (hrun : inspectLoop h (find_blend_files directory t) ⟨[], []⟩ =
      (evs, some st))
    (hnd : (find_blend_files directory t).Nodup) :
    st.results_libs = (find_blend_files directory t).map
        (fun f => (f, (h.openLibraries f).getD []))
    ∧ st.results_size = ((find_blend_files directory t).filter fun f =>
        decide (50 * 1024 * 1024 < (h.getsize f).getD 0)).map
        (fun f => (f, (h.getsize f).getD 0))
    ∧ reportLibs st.results_libs =
        (st.results_libs.filter fun e => !e.2.isEmpty).flatMap
          (fun e => ("Blend File: " ++ e.1) ::
            e.2.map (fun lib => "    - " ++ lib)) := by
  obtain ⟨hl, hs⟩ := inspectLoop_succ_results _ _ _ _ hrun hnd
    (fun f _ => rfl) (fun f _ => rfl)
  exact ⟨by simpa using hl, by simpa using hs, reportLibs_eq _⟩

/-- C4: a discovered file whose host-reported library list is empty gets
an entry with the empty sequence in the libraries dictionary, and no
line of the library report is printed for it. -/
theorem empty_libs_spec (h : HostAPI) (directory : String) (t : FSTree)
    (evs : List HostEvent) (st : ScriptState) (f : String)
    (hrun : inspectLoop h (find_blend_files directory t) ⟨[], []⟩ =
      (evs, some st))
    (hnd : (find_blend_files directory t).Nodup)
    (hf : f ∈ find_blend_files directory t)
    (hopen : h.openLibraries f = some []) :
    (f, ([] : List String)) ∈ st.results_libs
    ∧ ("Blend File: " ++ f) ∉ reportLibs st.results_libs := by
  obtain ⟨hl0, _⟩ := inspectLoop_succ_results _ _ _ _ hrun hnd
    (fun g _ => rfl) (fun g _ => rfl)
  have hl : st.results_libs = (find_blend_files directory t).map
      (fun g => (g, (h.openLibraries g).getD [])) := by simpa using hl0
  have hentry : (f, ([] : List String)) ∈ st.results_libs := by
    rw [hl]
    apply List.mem_map.mpr
    exact ⟨f, hf, by rw [hopen]; rfl⟩
  refine ⟨hentry, ?_⟩
  intro hline
  rw [reportLibs_eq] at hline
  obtain ⟨e, he, hez⟩ := List.mem_flatMap.mp hline
  obtain ⟨hemem, hene⟩ := List.mem_filter.mp he
  rcases List.mem_cons.mp hez with hhead | hdash
  · have hef : f = e.1 := header_inj hhead
    rw [hl] at hemem
    obtain ⟨g, hg, hge⟩ := List.mem_map.mp hemem
    have he1 : e.1 = g := by rw [← hge]
    have he2 : e.2 = (h.openLibraries g).getD [] := by rw [← hge]
    rw [he1] at hef
    subst hef
    rw [hopen] at he2
    rw [he2] at hene
    simp at hene
  · obtain ⟨lib, _, hlib⟩ := List.mem_map.mp hdash
    exact dash_ne_header lib f hlib

/-- C8: in a successful run, the host events are exactly one
`openMainfile` (a full replacement of the single active document)
immediately followed by the corresponding library query, per discovered
file in discovery order — so each inspection completes before the next
load begins — and every query happens while the queried file is the
active document. -/
theorem single_document_spec (h : HostAPI) (directory : String) (t : FSTree)
    (evs : List HostEvent) (st : ScriptState)
    (hrun : inspectLoop h (find_blend_files directory t) ⟨[], []⟩ =
      (evs, some st)) :
    evs = (find_blend_files directory t).flatMap
        (fun f => [HostEvent.openMainfile f, HostEvent.queryLibraries f])
    ∧ ∀ (pre post : List HostEvent) (q : String),
        evs = pre ++ HostEvent.queryLibraries q :: post →
        activeDoc pre = some q := by
  have hevs := inspectLoop_events _ _ _ _ hrun
  refine ⟨hevs, ?_⟩
  intro pre post q hdec
  apply flatMap_trace_query_active (find_blend_files directory t) pre post q
  rw [← hevs]
  exact hdec

/-- C10: after a successful run over distinct discovered paths, the
libraries dictionary has exactly one entry per discovered path (its keys
are the discovered paths in order), and every size-warning key is among
them. -/
theorem results_keys_invariant_spec (h : HostAPI) (directory : String)
    (t : FSTree) (evs : List HostEvent) (st : ScriptState)
    (hrun : inspectLoop h (find_blend_files directory t) ⟨[], []⟩ =
      (evs, some st))
    (hnd : (find_blend_files directory t).Nodup) :
    st.results_libs.map Prod.fst = find_blend_files directory t
    ∧ ∀ p ∈ st.results_size.map Prod.fst, p ∈ st.results_libs.map Prod.fst := by
  obtain ⟨hl0, hs0⟩ := inspectLoop_succ_results _ _ _ _ hrun hnd
    (fun g _ => rfl) (fun g _ => rfl)
  have hl : st.results_libs = (find_blend_files directory t).map
      (fun g => (g, (h.openLibraries g).getD [])) := by simpa using hl0
  have hs : st.results_size = ((find_blend_files directory t).filter fun g =>
      decide (50 * 1024 * 1024 < (h.getsize g).getD 0)).map
      (fun g => (g, (h.getsize g).getD 0)) := by simpa using hs0
  have hkeys : st.results_libs.map Prod.fst = find_blend_files directory t := by
    rw [hl, List.map_map]
    show List.map (fun g => g) (find_blend_files directory t)
      = find_blend_files directory t
    exact List.map_id' (find_blend_files directory t)
  refine ⟨hkeys, ?_⟩
  intro p hp
  rw [hs, List.map_map] at hp
  simp only [List.mem_map, Function.comp] at hp
  obtain ⟨g, hg, hgp⟩ := hp
  rw [hkeys]
  subst hgp
  exact List.mem_of_mem_filter hg

/-- The discovered files of the example tree. -/
theorem exFiles : find_blend_files "d" exTree
    = ["d/a.blend", "d/sub/b.BLEND", "d/sub/c.blend"] := by
  rw [exTree, find_blend_files]
  simp only [List.attach, List.attachWith, List.pmap, List.map_cons, List.map_nil]
  rw [find_blend_files]
  decide

/-- Witness for C1: the example run satisfies the hypothesis and the
theorem applies to it. -/
theorem size_warning_threshold_spec_witness :
    inspectLoop exHost (find_blend_files "d" exTree) ⟨[], []⟩
      = (exTrace, some exState)
    ∧ ((∀ p ∈ find_blend_files "d" exTree, ∃ sz, exHost.getsize p = some sz ∧
          dictLookup exState.results_size p =
            (if 50 * 1024 * 1024 < sz then some sz else none))
      ∧ (∀ p v, (p, v) ∈ exState.results_size → warnLine p v ∈ report exState)
      ∧ runScript exHost "d" exTree = (exTrace, some (report exState))) :=
  ⟨by rw [exFiles]; decide,
   size_warning_threshold_spec exHost "d" exTree exTrace exState
     (by rw [exFiles]; decide)⟩

/-- Witness for C3 at the example run. -/
theorem libs_report_order_spec_witness :
    (inspectLoop exHost (find_blend_files "d" exTree) ⟨[], []⟩
        = (exTrace, some exState)
      ∧ (find_blend_files "d" exTree).Nodup)
    ∧ (exState.results_libs = (find_blend_files "d" exTree).map
          (fun f => (f, (exHost.openLibraries f).getD []))
      ∧ exState.results_size = ((find_blend_files "d" exTree).filter fun f =>
          decide (50 * 1024 * 1024 < (exHost.getsize f).getD 0)).map
          (fun f => (f, (exHost.getsize f).getD 0))
      ∧ reportLibs exState.results_libs =
          (exState.results_libs.filter fun e => !e.2.isEmpty).flatMap
            (fun e => ("Blend File: " ++ e.1) ::
              e.2.map (fun lib => "    - " ++ lib))) :=
  ⟨⟨by rw [exFiles]; decide, by rw [exFiles]; decide⟩,
   libs_report_order_spec exHost "d" exTree exTrace exState
     (by rw [exFiles]; decide) (by rw [exFiles]; decide)⟩

/-- Witness for C4 at the example run, on the reference-free file. -/
theorem empty_libs_spec_witness :
    (inspectLoop exHost (find_blend_files "d" exTree) ⟨[], []⟩
        = (exTrace, some exState)
      ∧ (find_blend_files "d" exTree).Nodup
      ∧ "d/sub/c.blend" ∈ find_blend_files "d" exTree
      ∧ exHost.openLibraries "d/sub/c.blend" = some [])
    ∧ (("d/sub/c.blend", ([] : List String)) ∈ exState.results_libs
      ∧ ("Blend File: " ++ "d/sub/c.blend") ∉ reportLibs exState.results_libs) :=
  ⟨⟨by rw [exFiles]; decide, by rw [exFiles]; decide, by rw [exFiles]; decide,
    by decide⟩,
   empty_libs_spec exHost "d" exTree exTrace exState "d/sub/c.blend"
     (by rw [exFiles]; decide) (by rw [exFiles]; decide) (by rw [exFiles]; decide)
     (by decide)⟩

/-- Witness for C5 with the host whose load of `d/sub/b.BLEND` raises. -/
theorem no_error_handling_spec_witness :
    "d/sub/b.BLEND" ∈ find_blend_files "d" exTree
    ∧ (((exHostFail.getsize "d/sub/b.BLEND" = none
          ∨ exHostFail.openLibraries "d/sub/b.BLEND" = none) →
        (runScript exHostFail "d" exTree).2 = none)
      ∧ ∀ (s : ScriptState) (sz : Nat) (libs : List String),
          exHostFail.getsize "d/sub/b.BLEND" = some sz →
          exHostFail.openLibraries "d/sub/b.BLEND" = some libs →
          ∃ s1, (inspectOne exHostFail s "d/sub/b.BLEND").2 = some s1) :=
  ⟨by rw [exFiles]; decide,
   no_error_handling_spec exHostFail "d" exTree "d/sub/b.BLEND"
     (by rw [exFiles]; decide)⟩

/-- Witness for C6 with two hosts that agree on the discovered files. -/
theorem determinism_spec_witness :
    (∀ f ∈ find_blend_files "d" exTree,
      exHost.getsize f = exHost2.getsize f
      ∧ exHost.openLibraries f = exHost2.openLibraries f)
    ∧ runScript exHost "d" exTree = runScript exHost2 "d" exTree :=
  ⟨by rw [exFiles]; decide,
   determinism_spec exHost exHost2 "d" exTree (by rw [exFiles]; decide)⟩

/-- Witness for C7 at one event of the example run. -/
theorem no_disk_writes_spec_witness :
    HostEvent.openMainfile "d/a.blend" ∈ (runScript exHost "d" exTree).1
    ∧ modifiesDisk (HostEvent.openMainfile "d/a.blend") = false :=
  ⟨by rw [runScript_eq, exFiles]; decide,
   no_disk_writes_spec exHost "d" exTree (HostEvent.openMainfile "d/a.blend")
     (by rw [runScript_eq, exFiles]; decide)⟩

/-- Witness for C8 at the example run. -/
theorem single_document_spec_witness :
    inspectLoop exHost (find_blend_files "d" exTree) ⟨[], []⟩
      = (exTrace, some exState)
    ∧ (exTrace = (find_blend_files "d" exTree).flatMap
          (fun f => [HostEvent.openMainfile f, HostEvent.queryLibraries f])
      ∧ ∀ (pre post : List HostEvent) (q : String),
          exTrace = pre ++ HostEvent.queryLibraries q :: post →
          activeDoc pre = some q) :=
  ⟨by rw [exFiles]; decide,
   single_document_spec exHost "d" exTree exTrace exState
     (by rw [exFiles]; decide)⟩

/-- Witness for C9 with the failing host. -/
theorem abort_no_output_spec_witness :
    ("d/sub/b.BLEND" ∈ find_blend_files "d" exTree
      ∧ exHostFail.openLibraries "d/sub/b.BLEND" = none)
    ∧ (runScript exHostFail "d" exTree).2 = none :=
  ⟨⟨by rw [exFiles]; decide, by decide⟩,
   abort_no_output_spec exHostFail "d" exTree "d/sub/b.BLEND"
     (by rw [exFiles]; decide) (by decide)⟩

/-- Witness for C10 at the example run. -/
theorem results_keys_invariant_spec_witness :
    (inspectLoop exHost (find_blend_files "d" exTree) ⟨[], []⟩
        = (exTrace, some exState)
      ∧ (find_blend_files "d" exTree).Nodup)
    ∧ (exState.results_libs.map Prod.fst = find_blend_files "d" exTree
      ∧ ∀ p ∈ exState.results_size.map Prod.fst,
          p ∈ exState.results_libs.map Prod.fst) :=
  ⟨⟨by rw [exFiles]; decide, by rw [exFiles]; decide⟩,
   results_keys_invariant_spec exHost "d" exTree exTrace exState
     (by rw [exFiles]; decide) (by rw [exFiles]; decide)⟩
